import Mathlib

set_option maxHeartbeats 1000000

namespace ValibotRegex

/-- Kind of a shorthand character set node (`.`, `\d`, `\w`, `\s`, `\p{..}`),
mirroring the `kind` field of regexpp's `CharacterSet`. -/
inductive CharSetKind where
  | any
  | digit
  | word
  | space
  | property
  deriving DecidableEq, Repr

/-- A shorthand character set together with its `negate` flag
(`\D` is `⟨.digit, true⟩`, `\d` is `⟨.digit, false⟩`). -/
structure CharSet where
  kind : CharSetKind
  negate : Bool
  deriving DecidableEq, Repr

/-- An element of a bracketed character class: a single character,
a character range, or an embedded shorthand set. -/
inductive ClassElem where
  | char (value : Nat)
  | range (lo hi : Nat)
  | set (s : CharSet)
  deriving DecidableEq, Repr

/-- A node of the parsed regex tree, mirroring the regexpp AST shapes used by
`src/library/src/regex-parser.ts`.  `List (List Element)` plays the role of a
list of `Alternative`s (each alternative being its list of `elements`).
A `quantifier` carries its `min`, its `max` (`none` encodes `Infinity`), its
`greedy` flag and its wrapped element. -/
inductive Element where
  | char (value : Nat)
  | charClass (negate : Bool) (elems : List ClassElem)
  | charSet (s : CharSet)
  | quantifier (qmin : Nat) (qmax : Option Nat) (greedy : Bool) (elem : Element)
  | capturingGroup (name : Option String) (alts : List (List Element))
  | group (alts : List (List Element))
  | assertStart
  | assertEnd
  | assertWord (negate : Bool)
  | lookahead (negate : Bool) (alts : List (List Element))
  | lookbehind (negate : Bool) (alts : List (List Element))
  | backreference (ref : Nat ⊕ String)
  deriving Repr

/-- A whole pattern: the `alternatives` list of regexpp's `Pattern` node. -/
abbrev Pat := List (List Element)

/-- A `{min, max}` length estimate; `max = none` encodes the source's
`null` (= no finite upper bound). -/
structure Estimate where
  min : Nat
  max : Option Nat
  deriving DecidableEq, Repr

/-- Converts the accumulator pair of `LengthEstimatorVisitor.visitAlternatives`
into the returned estimate: `overallMin === Infinity ? 0 : overallMin`
(the `none` accumulator encodes the initial `Infinity`). -/
def finishAlts (p : Option Nat × Option Nat) : Estimate :=
  ⟨p.1.getD 0, p.2⟩

/-- The `totalMax` update of `visitSequence`: `null` absorbs, otherwise add. -/
def seqMaxStep (rmax tmax : Option Nat) : Option Nat :=
  match rmax, tmax with
  | none, _ => none
  | some _, none => none
  | some rx, some tm => some (tm + rx)

/-- The `overallMin` update of `visitAlternatives`:
`Math.min(overallMin, result.min)` with `none` as the initial `Infinity`. -/
def altsMinStep (omin : Option Nat) (rmin : Nat) : Option Nat :=
  match omin with
  | none => some rmin
  | some m => some (Nat.min m rmin)

/-- The `overallMax` update of `visitAlternatives`: `null` absorbs, otherwise
`Math.max`. -/
def altsMaxStep (rmax omax : Option Nat) : Option Nat :=
  match rmax, omax with
  | none, _ => none
  | some _, none => none
  | some rx, some am => some (Nat.max am rx)

mutual

/-- `LengthEstimatorVisitor.visitNode` from `regex-parser.ts`. -/
def visitNode : Element → Estimate
  | .char _ => ⟨1, some 1⟩
  | .charClass _ _ => ⟨1, some 1⟩
  | .charSet _ => ⟨1, some 1⟩
  | .quantifier qmin qmax _ e =>
      let r := visitNode e
      match qmax with
      | none => ⟨qmin * r.min, none⟩
      | some qx =>
          match r.max with
          | none => ⟨qmin * r.min, none⟩
          | some ix => ⟨qmin * r.min, some (qx * ix)⟩
  | .capturingGroup _ alts =>
      if 0 < alts.length then finishAlts (visitAltsAux none (some 0) alts) else ⟨0, some 0⟩
  | .group alts =>
      if 0 < alts.length then finishAlts (visitAltsAux none (some 0) alts) else ⟨0, some 0⟩
  | .assertStart => ⟨0, some 0⟩
  | .assertEnd => ⟨0, some 0⟩
  | .assertWord _ => ⟨0, some 0⟩
  | .lookahead _ _ => ⟨0, some 0⟩
  | .lookbehind _ _ => ⟨0, some 0⟩
  | .backreference _ => ⟨0, none⟩

/-- The loop of `LengthEstimatorVisitor.visitSequence`: `tmin`/`tmax` are the
`totalMin`/`totalMax` accumulators (`tmax = none` once an element had
`max = null`). -/
def visitSeqAux (tmin : Nat) (tmax : Option Nat) : List Element → Estimate
  | [] => ⟨tmin, tmax⟩
  | e :: rest =>
      let r := visitNode e
      visitSeqAux (tmin + r.min) (seqMaxStep r.max tmax) rest

/-- The loop of `LengthEstimatorVisitor.visitAlternatives`: `omin` is the
`overallMin` accumulator (`none` = the initial `Infinity`), `omax` the
`overallMax` accumulator (`none` = `null`). -/
def visitAltsAux (omin omax : Option Nat) : List (List Element) → Option Nat × Option Nat
  | [] => (omin, omax)
  | alt :: rest =>
      let r := visitSeqAux 0 (some 0) alt
      visitAltsAux (altsMinStep omin r.min) (altsMaxStep r.max omax) rest

end

/-- `LengthEstimatorVisitor.visitSequence`. -/
def visitSequence (es : List Element) : Estimate :=
  visitSeqAux 0 (some 0) es

/-- `LengthEstimatorVisitor.visitAlternatives`. -/
def visitAlternatives (alts : List (List Element)) : Estimate :=
  if alts.length = 0 then ⟨0, some 0⟩ else finishAlts (visitAltsAux none (some 0) alts)

/-- `LengthEstimatorVisitor.estimate` applied to a `Pattern` node
(`visitNode` on `Pattern` forwards to `visitAlternatives`). -/
def estimatePattern (pat : Pat) : Estimate :=
  visitAlternatives pat

/-- `MinMaxTransformer.escapeChar` / `ConfigurableTransformer.escapeChar`
(the two methods are textually identical in the source). -/
def escapeChar (value : Nat) : String :=
  let c := Char.ofNat value
  if "\\^$.*+?()[]\x7b\x7d|".data.contains c then "\\" ++ c.toString
  else if value = 0x0A then "\\n"
  else if value = 0x0D then "\\r"
  else if value = 0x09 then "\\t"
  else c.toString

/-- `transformCharacterSet` (identical in both transformers).  Note that the
source consults only `node.kind` and never `node.negate`, and that the
`property` kind falls through to `""`. -/
def transformCharacterSet (s : CharSet) : String :=
  if s.kind = CharSetKind.any then "."
  else if s.kind = CharSetKind.digit then "\\d"
  else if s.kind = CharSetKind.word then "\\w"
  else if s.kind = CharSetKind.space then "\\s"
  else ""

/-- One iteration of the element loop in `transformCharacterClass`: appends the
serialization of one class element to the accumulated `result` string (the
whole accumulated string is threaded because the source inspects it, e.g.
`result === "["` and its last character). -/
def classElemStep (result : String) (elem : ClassElem) : String :=
  match elem with
  | .char v =>
      let c := Char.ofNat v
      if c = ']' ∨ c = '\\' then result ++ "\\" ++ c.toString
      else if c = '^' ∧ result = "[" then result ++ "\\^"
      else if c = '-' ∧ 1 < result.length ∧ result.back ≠ '[' then result ++ "\\-"
      else result ++ c.toString
  | .range lo hi => result ++ (Char.ofNat lo).toString ++ "-" ++ (Char.ofNat hi).toString
  | .set s => result ++ transformCharacterSet s

/-- `transformCharacterClass` (identical in both transformers). -/
def transformCharacterClassStr (negate : Bool) (elems : List ClassElem) : String :=
  (elems.foldl classElemStep (if negate then "[^" else "[")) ++ "]"

/-- The quantifier-suffix serialization chain of
`MinMaxTransformer.transformQuantifier` (the six branches after the bounds
have been clamped); `lazySuffix` is the precomputed `lazy` string. -/
def mmQuantSuffix (mn : Nat) (mx : Option Nat) (lazySuffix : String) : String :=
  if mn = 0 ∧ mx = some 1 then "?" ++ lazySuffix
  else if mn = 0 ∧ mx = none then "*" ++ lazySuffix
  else if mn = 1 ∧ mx = none then "+" ++ lazySuffix
  else if mx = some mn then "\x7b" ++ toString mn ++ "\x7d"
  else
    match mx with
    | none => "\x7b" ++ toString mn ++ ",\x7d" ++ lazySuffix
    | some mxv => "\x7b" ++ toString mn ++ "," ++ toString mxv ++ "\x7d" ++ lazySuffix

/-- The quantifier-suffix serialization chain of
`ConfigurableTransformer.transformQuantifier` (a near-duplicate of the
`MinMaxTransformer` one in the source, kept separate here as in the source). -/
def ctQuantSuffix (mn : Nat) (mx : Option Nat) (lazySuffix : String) : String :=
  if mn = 0 ∧ mx = some 1 then "?" ++ lazySuffix
  else if mn = 0 ∧ mx = none then "*" ++ lazySuffix
  else if mn = 1 ∧ mx = none then "+" ++ lazySuffix
  else if mx = some mn then "\x7b" ++ toString mn ++ "\x7d"
  else
    match mx with
    | none => "\x7b" ++ toString mn ++ ",\x7d" ++ lazySuffix
    | some mxv => "\x7b" ++ toString mn ++ "," ++ toString mxv ++ "\x7d" ++ lazySuffix

/-- The max-clamping step of `MinMaxTransformer.transformQuantifier`:
`max === Infinity ? maxTarget : Math.min(max, maxTarget)` (`none` encodes
`Infinity`; `maxTarget` itself may be `Infinity` when the transformer is used
by `regexToString`). -/
def mmClampMax (qmax maxT : Option Nat) : Option Nat :=
  match qmax with
  | none => maxT
  | some qx =>
      match maxT with
      | none => some qx
      | some mt => some (Nat.min qx mt)

mutual

/-- `MinMaxTransformer.transformElement`, parameterized by the transformer's
`minTarget`/`maxTarget`/`preferLazy` fields. -/
def mmElem (minT : Nat) (maxT : Option Nat) (pl : Bool) : Element → String
  | .char v => escapeChar v
  | .charClass negate elems => transformCharacterClassStr negate elems
  | .charSet s => transformCharacterSet s
  | .quantifier qmin qmax g e =>
      let element := mmElem minT maxT pl e
      let mn := Nat.min qmin minT
      let mx := mmClampMax qmax maxT
      let lazySuffix := if pl || !g then "?" else ""
      element ++ mmQuantSuffix mn mx lazySuffix
  | .capturingGroup name alts =>
      match name with
      | some n => "(?<" ++ n ++ ">" ++ mmAlts minT maxT pl alts ++ ")"
      | none => "(" ++ mmAlts minT maxT pl alts ++ ")"
  | .group alts => "(?:" ++ mmAlts minT maxT pl alts ++ ")"
  | .assertStart => "^"
  | .assertEnd => "$"
  | .assertWord _ => "\\b"
  | .lookahead negate alts =>
      if negate then "(?!" ++ mmAlts minT maxT pl alts ++ ")"
      else "(?=" ++ mmAlts minT maxT pl alts ++ ")"
  | .lookbehind negate alts =>
      if negate then "(?<!" ++ mmAlts minT maxT pl alts ++ ")"
      else "(?<=" ++ mmAlts minT maxT pl alts ++ ")"
  | .backreference ref =>
      match ref with
      | Sum.inl n => "\\" ++ toString n
      | Sum.inr name => "\\k<" ++ name ++ ">"

/-- `MinMaxTransformer.transformAlternative`: elements serialized and joined
with `""`. -/
def mmSeq (minT : Nat) (maxT : Option Nat) (pl : Bool) : List Element → String
  | [] => ""
  | e :: rest => mmElem minT maxT pl e ++ mmSeq minT maxT pl rest

/-- `MinMaxTransformer.transformAlternatives`: alternatives joined with `|`
(empty list gives `""`, a single alternative is serialized alone). -/
def mmAlts (minT : Nat) (maxT : Option Nat) (pl : Bool) : List (List Element) → String
  | [] => ""
  | [alt] => mmSeq minT maxT pl alt
  | alt :: rest => mmSeq minT maxT pl alt ++ "|" ++ mmAlts minT maxT pl rest

end

/-- `MinMaxTransformer.transform`/`transformPattern` on an already-parsed
pattern tree (the source re-parses its own input text here; parsing is pure
and deterministic per the parser contract, so the tree is the one the caller
already holds). -/
def mmTransform (minT : Nat) (maxT : Option Nat) (pl : Bool) (pat : Pat) : String :=
  mmAlts minT maxT pl pat

/-- A quantifier-assignment lookup, modelling the
`Map<AST.Quantifier, {min, max}>` of `ConfigurableTransformer`.  The source
keys this map by node reference; every configuration built by
`RegexCandidateGenerator` assigns bounds that depend only on the quantifier
node's own structure, so a lookup keyed by the node's structural value is
extensionally equivalent on those configurations. -/
abbrev Cfg := Element → Option (Nat × Nat)

/-- The bounds resolution of `ConfigurableTransformer.transformQuantifier`:
use the configured `{min, max}` when the map has an entry for this node,
else the node's own bounds. -/
def ctBounds (entry : Option (Nat × Nat)) (qmin : Nat) (qmax : Option Nat) : Nat × Option Nat :=
  match entry with
  | some p => (p.1, some p.2)
  | none => (qmin, qmax)

mutual

/-- `ConfigurableTransformer.transformElement`. -/
def ctElem (cfg : Cfg) : Element → String
  | .char v => escapeChar v
  | .charClass negate elems => transformCharacterClassStr negate elems
  | .charSet s => transformCharacterSet s
  | .quantifier qmin qmax g e =>
      let element := ctElem cfg e
      let bp := ctBounds (cfg (.quantifier qmin qmax g e)) qmin qmax
      let lazySuffix := if !g then "?" else ""
      element ++ ctQuantSuffix bp.1 bp.2 lazySuffix
  | .capturingGroup name alts =>
      match name with
      | some n => "(?<" ++ n ++ ">" ++ ctAlts cfg alts ++ ")"
      | none => "(" ++ ctAlts cfg alts ++ ")"
  | .group alts => "(?:" ++ ctAlts cfg alts ++ ")"
  | .assertStart => "^"
  | .assertEnd => "$"
  | .assertWord _ => "\\b"
  | .lookahead negate alts =>
      if negate then "(?!" ++ ctAlts cfg alts ++ ")"
      else "(?=" ++ ctAlts cfg alts ++ ")"
  | .lookbehind negate alts =>
      if negate then "(?<!" ++ ctAlts cfg alts ++ ")"
      else "(?<=" ++ ctAlts cfg alts ++ ")"
  | .backreference ref =>
      match ref with
      | Sum.inl n => "\\" ++ toString n
      | Sum.inr name => "\\k<" ++ name ++ ">"

/-- `ConfigurableTransformer.transformAlternative`. -/
def ctSeq (cfg : Cfg) : List Element → String
  | [] => ""
  | e :: rest => ctElem cfg e ++ ctSeq cfg rest

/-- `ConfigurableTransformer.transformAlternatives`. -/
def ctAlts (cfg : Cfg) : List (List Element) → String
  | [] => ""
  | [alt] => ctSeq cfg alt
  | alt :: rest => ctSeq cfg alt ++ "|" ++ ctAlts cfg rest

end

/-- `ConfigurableTransformer.transform` on a pattern tree. -/
def ctTransform (cfg : Cfg) (pat : Pat) : String :=
  ctAlts cfg pat

mutual

/-- Structural equality test on elements, used to model lookups keyed by
quantifier node (see `Cfg`). -/
def beqE : Element → Element → Bool
  | .char a, .char b => a == b
  | .charClass n1 e1, .charClass n2 e2 => n1 == n2 && e1 == e2
  | .charSet s1, .charSet s2 => s1 == s2
  | .quantifier a1 b1 g1 e1, .quantifier a2 b2 g2 e2 =>
      a1 == a2 && b1 == b2 && g1 == g2 && beqE e1 e2
  | .capturingGroup n1 a1, .capturingGroup n2 a2 => n1 == n2 && beqA a1 a2
  | .group a1, .group a2 => beqA a1 a2
  | .assertStart, .assertStart => true
  | .assertEnd, .assertEnd => true
  | .assertWord n1, .assertWord n2 => n1 == n2
  | .lookahead n1 a1, .lookahead n2 a2 => n1 == n2 && beqA a1 a2
  | .lookbehind n1 a1, .lookbehind n2 a2 => n1 == n2 && beqA a1 a2
  | .backreference r1, .backreference r2 => r1 == r2
  | _, _ => false

/-- Structural equality on element sequences. -/
def beqS : List Element → List Element → Bool
  | [], [] => true
  | x :: xs, y :: ys => beqE x y && beqS xs ys
  | _, _ => false

/-- Structural equality on alternative lists. -/
def beqA : List (List Element) → List (List Element) → Bool
  | [], [] => true
  | x :: xs, y :: ys => beqS x y && beqA xs ys
  | _, _ => false

end

/-- Membership of an element in a list of elements (models
`Array.prototype.includes` / reference-keyed map domains on collected
quantifier nodes). -/
def elemIn (e : Element) : List Element → Bool
  | [] => false
  | q :: rest => beqE e q || elemIn e rest

mutual

/-- The visitor of `RegexCandidateGenerator.findQuantifiers` on one element:
a `Quantifier` pushes itself and then visits its wrapped element; groups visit
their alternatives; no other node kind is descended into (in particular
lookaround assertion bodies are not visited). -/
def findQE : Element → List Element
  | .quantifier qmin qmax g e => .quantifier qmin qmax g e :: findQE e
  | .capturingGroup _ alts => findQA alts
  | .group alts => findQA alts
  | _ => []

/-- `findQuantifiers` over one alternative's element list. -/
def findQS : List Element → List Element
  | [] => []
  | e :: rest => findQE e ++ findQS rest

/-- `findQuantifiers` over a list of alternatives. -/
def findQA : List (List Element) → List Element
  | [] => []
  | alt :: rest => findQS alt ++ findQA rest

end

mutual

/-- `true` when the element's subtree (including lookaround bodies) contains
no `Quantifier` node at all — the spec's "pattern containing zero
`Repetition` nodes". -/
def noQuantE : Element → Bool
  | .quantifier _ _ _ _ => false
  | .capturingGroup _ alts => noQuantA alts
  | .group alts => noQuantA alts
  | .lookahead _ alts => noQuantA alts
  | .lookbehind _ alts => noQuantA alts
  | _ => true

/-- No quantifier anywhere in an element sequence. -/
def noQuantS : List Element → Bool
  | [] => true
  | e :: rest => noQuantE e && noQuantS rest

/-- No quantifier anywhere in a list of alternatives. -/
def noQuantA : List (List Element) → Bool
  | [] => true
  | alt :: rest => noQuantS alt && noQuantA rest

end

/-- The growability test of `generateQuantifierConfigurations`:
`q.min < (q.max === Infinity ? 1000 : q.max) || q.min === 0`
(applied only to quantifier nodes; any other node is vacuously not growable). -/
def isGrowable : Element → Bool
  | .quantifier qmin qmax _ _ =>
      decide (qmin < (match qmax with | none => 1000 | some qx => qx)) || decide (qmin = 0)
  | _ => false

/-- `estimator.estimate(q.element).min || 1` — a zero minimum is falsy in the
source and falls back to `1`. -/
def orOne (n : Nat) : Nat :=
  if n = 0 then 1 else n

/-- The per-quantifier assignment built inside the target-length loop of
`generateQuantifierConfigurations`: growable quantifiers are pinned to an
even share of `targetLength`, others keep their own bounds (with an infinite
max collapsed to the min). -/
def assignForTarget (targetLength growCount : Nat) : Element → Nat × Nat
  | .quantifier qmin qmax g e =>
      if isGrowable (.quantifier qmin qmax g e) then
        let elemLength := orOne (visitNode e).min
        let repsNeeded := targetLength / growCount / elemLength
        let finalValue := Nat.max qmin (Nat.min repsNeeded
          (match qmax with | none => targetLength | some qx => qx))
        (finalValue, finalValue)
      else
        (qmin, match qmax with | none => qmin | some qx => qx)
  | _ => (0, 0)

/-- The forced fallback assignment (`If still no valid configs`): every
quantifier is pinned to a repeat count derived from `minLength` alone. -/
def assignFallback (minLength : Nat) : Element → Nat × Nat
  | .quantifier qmin qmax _ e =>
      let elemLength := orOne (visitNode e).min
      let repsNeeded := minLength / elemLength
      let finalValue := Nat.max qmin (Nat.min repsNeeded
        (match qmax with | none => minLength | some qx => qx))
      (finalValue, finalValue)
  | _ => (0, 0)

/-- The assignment used when no quantifier can change
(`growableQuantifiers.length === 0`): every quantifier keeps its own bounds,
with an infinite max collapsed to the min. -/
def assignNoGrow : Element → Nat × Nat
  | .quantifier qmin qmax _ _ => (qmin, match qmax with | none => qmin | some qx => qx)
  | _ => (0, 0)

/-- Builds a `Cfg` lookup whose domain is the collected quantifier list and
whose value on each is given by `assign` (models `config.set(q, ...)` for
each collected `q`). -/
def cfgOf (quants : List Element) (assign : Element → Nat × Nat) : Cfg :=
  fun e => if elemIn e quants then some (assign e) else none

/-- The keep-first deduplication `arr.filter((v, i, arr) => arr.indexOf(v) === i)`. -/
def dedupFirst (l : List Nat) : List Nat :=
  l.foldl (fun acc v => if v ∈ acc then acc else acc ++ [v]) []

/-- The target total lengths attempted by `generateQuantifierConfigurations`
(`range` is computed over the integers because the source never guards
`maxLength ≥ minLength`). -/
def targetValues (minLength maxLength : Nat) : List Nat :=
  let range : Int := (maxLength : Int) - (minLength : Int)
  if range = 0 then [minLength]
  else if range ≤ 20 then
    dedupFirst [minLength, (minLength + maxLength) / 2, maxLength]
  else
    dedupFirst [minLength,
      minLength + (maxLength - minLength) / 4,
      minLength + (maxLength - minLength) / 2,
      minLength + 3 * (maxLength - minLength) / 4,
      maxLength]

/-- The output unit of `RegexCandidateGenerator.generate`:
`{ regex, minLength, maxLength }`. -/
structure Candidate where
  regex : String
  minLength : Nat
  maxLength : Option Nat
  deriving DecidableEq, Repr

/-- The target-length loop of `generateQuantifierConfigurations`:
for each target, build the per-quantifier assignment, serialize it, re-parse
the result with `P`, re-estimate, and keep the configuration when the
re-estimated minimum lies in `[minLength, maxLength]`; a failed re-parse is
skipped.  The loop stops early once `count` configurations are collected. -/
def attemptLoop (P : String → Option Pat) (pat : Pat) (quants : List Element)
    (growCount minLength maxLength count : Nat) :
    List Nat → List Cfg → List Cfg
  | [], acc => acc
  | t :: rest, acc =>
      if count ≤ acc.length then acc
      else
        let cfg := cfgOf quants (assignForTarget t growCount)
        match P (ctTransform cfg pat) with
        | none => attemptLoop P pat quants growCount minLength maxLength count rest acc
        | some parsed =>
            let testEstimate := estimatePattern parsed
            if minLength ≤ testEstimate.min ∧ testEstimate.min ≤ maxLength then
              attemptLoop P pat quants growCount minLength maxLength count rest (acc ++ [cfg])
            else
              attemptLoop P pat quants growCount minLength maxLength count rest acc

/-- `RegexCandidateGenerator.generateQuantifierConfigurations`.  `P` models
the external parsing primitive applied to rewritten pattern text. -/
def generateQuantifierConfigurations (P : String → Option Pat) (pat : Pat)
    (minLength maxLength count : Nat) : List Cfg :=
  let quantifiers := findQA pat
  let growable := quantifiers.filter isGrowable
  if growable.length = 0 then
    [cfgOf quantifiers assignNoGrow]
  else
    let cfgs := attemptLoop P pat quantifiers growable.length minLength maxLength count
      (targetValues minLength maxLength) []
    (if cfgs.length = 0 then [cfgOf quantifiers (assignFallback minLength)] else cfgs).take count

/-- The candidate-collection loop of `RegexCandidateGenerator.generate`:
serialize each configuration, re-parse it with `P`, and keep the candidate
with its re-estimated bound; a configuration whose rewritten text fails to
re-parse is silently dropped. -/
def generateLoop (P : String → Option Pat) (pat : Pat) : List Cfg → List Candidate
  | [] => []
  | cfg :: rest =>
      let transformedRegex := ctTransform cfg pat
      match P transformedRegex with
      | some parsed =>
          { regex := transformedRegex
            minLength := (estimatePattern parsed).min
            maxLength := (estimatePattern parsed).max } :: generateLoop P pat rest
      | none => generateLoop P pat rest

/-- `RegexCandidateGenerator.generate`: `pat` is the generator's parsed
pattern and `src` its delimiter-free source text. -/
def generate (P : String → Option Pat) (pat : Pat) (src : String)
    (minLength maxLength count : Nat) : List Candidate :=
  let quantifiers := findQA pat
  if quantifiers.length = 0 then
    [{ regex := src
       minLength := (estimatePattern pat).min
       maxLength := (estimatePattern pat).max }]
  else
    let configurations := generateQuantifierConfigurations P pat minLength maxLength count
    (generateLoop P pat configurations).take count

/-- The option record of `regexToStringMinMax` (without `min`/`max`);
`candidateCount = none` models an absent field. -/
structure MinMaxOptions where
  preferLazy : Bool := false
  generateCandidates : Bool := false
  candidateCount : Option Nat := none
  deriving Repr

/-- `options.candidateCount || 5` (an absent or zero count is falsy). -/
def orFive : Option Nat → Nat
  | none => 5
  | some n => if n = 0 then 5 else n

/-- `finalEstimate.max === null || finalEstimate.max <= maxLength` — the
second conjunct of the source's `isExact`. -/
def nullOrLe (mx : Option Nat) (bound : Nat) : Bool :=
  match mx with
  | none => true
  | some m => decide (m ≤ bound)

/-- The warning text of the infeasible branch of `regexToStringMinMax`. -/
def infeasibleWarning (maxLength structuralMin : Nat) : String :=
  "Cannot meet maxLength=" ++ toString maxLength ++ ". Structural minimum is "
    ++ toString structuralMin

/-- The warning text of the final branch of `regexToStringMinMax`. -/
def strictWarning (actualMin : Nat) : String :=
  "Constraints are too strict. Actual min: " ++ toString actualMin

/-- `RegexTransformResult` from `regex-parser.ts`. -/
structure RegexTransformResult where
  transformed : String
  actualMinLength : Nat
  actualMaxLength : Option Nat
  isExact : Bool
  candidates : Option (List Candidate)
  warning : Option String
  deriving Repr

/-- `regexToStringMinMax` from `regex-parser.ts`.  `pat` is the parse of the
input pattern `src` (the initial `parseRegex` call; a parse failure there
propagates to the caller and is outside this function's behaviour), and `P`
models the external parsing primitive applied to derived/rewritten text. -/
def regexToStringMinMax (P : String → Option Pat) (pat : Pat) (src : String)
    (minLength maxLength : Nat) (options : MinMaxOptions) : RegexTransformResult :=
  let currentEstimate := estimatePattern pat
  if maxLength < currentEstimate.min then
    { transformed := src
      actualMinLength := currentEstimate.min
      actualMaxLength := currentEstimate.max
      isExact := false
      warning := some (infeasibleWarning maxLength currentEstimate.min)
      candidates :=
        if options.generateCandidates then
          some (generate P pat src currentEstimate.min (currentEstimate.min + 10)
            (orFive options.candidateCount))
        else none }
  else
    let transformedPattern := mmTransform minLength (some maxLength) options.preferLazy pat
    let finalEstimate : Estimate :=
      match P transformedPattern with
      | some reparsed => estimatePattern reparsed
      | none => { min := minLength, max := some maxLength }
    let candidates :=
      if options.generateCandidates then
        some (generate P pat src minLength maxLength (orFive options.candidateCount))
      else none
    { transformed := transformedPattern
      actualMinLength := finalEstimate.min
      actualMaxLength := finalEstimate.max
      isExact := decide (minLength ≤ finalEstimate.min) && nullOrLe finalEstimate.max maxLength
      candidates := candidates
      warning :=
        if maxLength < finalEstimate.min then some (strictWarning finalEstimate.min)
        else none }

/-- The Length Bound invariant `min ≤ max whenever max is finite` as a
decidable check. -/
def leMax (mn : Nat) : Option Nat → Bool
  | none => true
  | some M => decide (mn ≤ M)

/-- The spec sentence's reading of the second `isExact` conjunct: the
achieved maximum is bounded (finite) and at most `bound`. -/
def boundedLe (mx : Option Nat) (bound : Nat) : Bool :=
  match mx with
  | none => false
  | some m => decide (m ≤ bound)

/-- A quantifier's own `min ≤ max` constraint (max `none` = infinite). -/
def wfQuantBound (qmin : Nat) (qmax : Option Nat) : Bool :=
  match qmax with
  | none => true
  | some qx => decide (qmin ≤ qx)

mutual

/-- Parser-guaranteed well-formedness of a quantifier tree: every quantifier
node has `min ≤ max` when its max is finite (the host regex dialect rejects
`{2,1}`-style quantifiers at parse time, so every parseable pattern
satisfies this). -/
def wfE : Element → Bool
  | .char _ => true
  | .charClass _ _ => true
  | .charSet _ => true
  | .quantifier qmin qmax _ e => wfQuantBound qmin qmax && wfE e
  | .capturingGroup _ alts => wfA alts
  | .group alts => wfA alts
  | .assertStart => true
  | .assertEnd => true
  | .assertWord _ => true
  | .lookahead _ alts => wfA alts
  | .lookbehind _ alts => wfA alts
  | .backreference _ => true

/-- Well-formedness of every element of a sequence. -/
def wfS : List Element → Bool
  | [] => true
  | e :: rest => wfE e && wfS rest

/-- Well-formedness of every alternative. -/
def wfA : List (List Element) → Bool
  | [] => true
  | alt :: rest => wfS alt && wfA rest

end

/-- Modelled from the amended claim C9: the canonical quantifier shorthand
(`{0,1}` as `?`, `{0,∞}` as `*`, `{1,∞}` as `+`, `{n}` when min = max, else
`{min,max}`), with the lazy `?` suffix appended in every form except the
`{n}` form, which never carries it. -/
def quantSuffixSpec (mn : Nat) (mx : Option Nat) (lazyFlag : Bool) : String :=
  let l := if lazyFlag then "?" else ""
  match mx with
  | some M =>
      if mn = 0 ∧ M = 1 then "?" ++ l
      else if mn = M then "\x7b" ++ toString mn ++ "\x7d"
      else "\x7b" ++ toString mn ++ "," ++ toString M ++ "\x7d" ++ l
  | none =>
      if mn = 0 then "*" ++ l
      else if mn = 1 then "+" ++ l
      else "\x7b" ++ toString mn ++ ",\x7d" ++ l

/-- `nullOrLe` decides "max is unbounded or at most `bound`". -/
theorem nullOrLe_eq_true_iff (mx : Option Nat) (bound : Nat) :
    nullOrLe mx bound = true ↔ (mx = none ∨ ∃ M, mx = some M ∧ M ≤ bound) := by
  cases mx <;> simp [nullOrLe]

/-- The Boolean `isExact` expression of the source, read propositionally. -/
theorem isExact_expr_iff (a : Nat) (mx : Option Nat) (minL maxL : Nat) :
    (decide (minL ≤ a) && nullOrLe mx maxL) = true ↔
      (minL ≤ a ∧ (mx = none ∨ ∃ M, mx = some M ∧ M ≤ maxL)) := by
  cases mx <;> simp [nullOrLe]

/-- Claim C7: the Length Estimator maps a `Repetition` node with counts
`(qmin, qmax)` over an inner element of estimated bound `(im, ix)` to
`(qmin × im, qmax × ix)`, the max being unbounded exactly when `qmax` is
unbounded or `ix` is unbounded. -/
theorem claim7_quantifier_estimate (qmin : Nat) (qmax : Option Nat) (g : Bool) (e : Element) :
    (visitNode (.quantifier qmin qmax g e)).min = qmin * (visitNode e).min ∧
    (visitNode (.quantifier qmin qmax g e)).max =
      (match qmax, (visitNode e).max with
        | some qx, some ix => some (qx * ix)
        | _, _ => none) ∧
    ((visitNode (.quantifier qmin qmax g e)).max = none ↔
      (qmax = none ∨ (visitNode e).max = none)) := by
  cases hq : qmax <;> cases hx : (visitNode e).max <;> simp [visitNode, hq, hx]

/-- Witness for C7 at `(a){2,3}`. -/
theorem claim7_witness :
    (visitNode (.quantifier 2 (some 3) true (.char 97))).min = 2 * (visitNode (.char 97)).min ∧
    (visitNode (.quantifier 2 (some 3) true (.char 97))).max =
      (match some 3, (visitNode (.char 97)).max with
        | some qx, some ix => some (qx * ix)
        | _, _ => none) ∧
    ((visitNode (.quantifier 2 (some 3) true (.char 97))).max = none ↔
      (some 3 = none ∨ (visitNode (.char 97)).max = none)) :=
  claim7_quantifier_estimate 2 (some 3) true (.char 97)

/-- Claim C2 (code bug): the rewriter does NOT preserve negated shorthand
character sets: the pattern `\D` (a `CharacterSet` with `kind = digit`,
`negate = true`) is serialized as `\d`, identically to the non-negated set,
because `transformCharacterSet` never consults the `negate` flag. -/
theorem claim2_negated_set_not_preserved :
    mmTransform 1 (some 5) false [[.charSet ⟨.digit, true⟩]] = "\\d" ∧
    transformCharacterSet ⟨.digit, true⟩ = transformCharacterSet ⟨.digit, false⟩ ∧
    ("\\d" : String) ≠ "\\D" := by
  decide

/-- Counterexample to claim C9 as stated: the node `a{2,2}` with lazy
greediness (source text `a{2}?`) is serialized by the rewriter as `a{2}`
with no trailing `?`, because the `{n}` (min = max) branch omits the lazy
suffix. -/
theorem claim9_counterexample :
    mmTransform 2 (some 5) false [[.quantifier 2 (some 2) false (.char 97)]] = "a\x7b2\x7d" ∧
    ("a\x7b2\x7d" : String) ≠ "a\x7b2\x7d?" := by
  decide

/-- The `MinMaxTransformer` quantifier-suffix chain agrees with the amended
canonical-shorthand specification. -/
theorem mmQuantSuffix_eq_spec (mn : Nat) (mx : Option Nat) (f : Bool) :
    mmQuantSuffix mn mx (if f then "?" else "") = quantSuffixSpec mn mx f := by
  cases mx <;> cases f <;>
    simp only [mmQuantSuffix, quantSuffixSpec] <;>
    split_ifs <;> simp_all [eq_comm] <;> omega

/-- The `ConfigurableTransformer` quantifier-suffix chain agrees with the
amended canonical-shorthand specification. -/
theorem ctQuantSuffix_eq_spec (mn : Nat) (mx : Option Nat) (f : Bool) :
    ctQuantSuffix mn mx (if f then "?" else "") = quantSuffixSpec mn mx f := by
  cases mx <;> cases f <;>
    simp only [ctQuantSuffix, quantSuffixSpec] <;>
    split_ifs <;> simp_all [eq_comm] <;> omega

/-- Claim C9 as amended: both rewriters serialize every `Repetition` node as
the serialized inner element followed by the canonical shorthand suffix
(`{0,1}` as `?`, `{0,∞}` as `*`, `{1,∞}` as `+`, `{n}` when min = max, else
`{min,max}`), with the lazy `?` appended (when the node was lazy, or — for
the global rewriter — when lazy preference was requested) in every form
EXCEPT the `{n}` form, which never carries it. -/
theorem claim9_quantifier_serialization (minT : Nat) (maxT : Option Nat) (pl : Bool)
    (cfg : Cfg) (qmin : Nat) (qmax : Option Nat) (g : Bool) (e : Element) :
    mmElem minT maxT pl (.quantifier qmin qmax g e) =
      mmElem minT maxT pl e ++
        quantSuffixSpec (Nat.min qmin minT) (mmClampMax qmax maxT) (pl || !g) ∧
    ctElem cfg (.quantifier qmin qmax g e) =
      ctElem cfg e ++
        quantSuffixSpec (ctBounds (cfg (.quantifier qmin qmax g e)) qmin qmax).1
          (ctBounds (cfg (.quantifier qmin qmax g e)) qmin qmax).2 (!g) := by
  constructor
  · rw [← mmQuantSuffix_eq_spec]
    simp only [mmElem]
  · rw [← ctQuantSuffix_eq_spec]
    simp only [ctElem]

/-- Counterexample to claim C1 as stated: for the pattern `(a)\1` (structural
minimum 1 ≤ maxLength 5), the transformed pattern re-estimates to max
unbounded, yet `isExact` is `true` — the source treats an unbounded
re-estimated max as satisfying the bound, while the claim requires it to be
finite. -/
theorem claim1_counterexample :
    ((estimatePattern [[.capturingGroup none [[.char 97]], .backreference (Sum.inl 1)]]).min ≤ 5) ∧
    ¬((regexToStringMinMax
        (fun s => if s = "(a)\\1"
          then some [[.capturingGroup none [[.char 97]], .backreference (Sum.inl 1)]] else none)
        [[.capturingGroup none [[.char 97]], .backreference (Sum.inl 1)]]
        "(a)\\1" 1 5 {}).isExact = true ↔
      (1 ≤ (regexToStringMinMax
        (fun s => if s = "(a)\\1"
          then some [[.capturingGroup none [[.char 97]], .backreference (Sum.inl 1)]] else none)
        [[.capturingGroup none [[.char 97]], .backreference (Sum.inl 1)]]
        "(a)\\1" 1 5 {}).actualMinLength ∧
        boundedLe (regexToStringMinMax
        (fun s => if s = "(a)\\1"
          then some [[.capturingGroup none [[.char 97]], .backreference (Sum.inl 1)]] else none)
        [[.capturingGroup none [[.char 97]], .backreference (Sum.inl 1)]]
        "(a)\\1" 1 5 {}).actualMaxLength 5 = true)) := by
  decide

/-- Claim C1 as amended: for every pattern whose structural minimum does not
exceed `maxLength`, the result has `isExact = true` iff the re-estimated
minimum is ≥ `minLength` and the re-estimated maximum is UNBOUNDED OR
≤ `maxLength`. -/
theorem claim1_isExact_characterization (P : String → Option Pat) (pat : Pat) (src : String)
    (minL maxL : Nat) (opts : MinMaxOptions)
    (h : (estimatePattern pat).min ≤ maxL) :
    ((regexToStringMinMax P pat src minL maxL opts).isExact = true ↔
      (minL ≤ (regexToStringMinMax P pat src minL maxL opts).actualMinLength ∧
        ((regexToStringMinMax P pat src minL maxL opts).actualMaxLength = none ∨
          ∃ M, (regexToStringMinMax P pat src minL maxL opts).actualMaxLength = some M ∧
            M ≤ maxL))) := by
  have hnot : ¬ (maxL < (estimatePattern pat).min) := not_lt.mpr h
  unfold regexToStringMinMax
  rw [if_neg hnot]
  cases hP : P (mmTransform minL (some maxL) opts.preferLazy pat) <;>
    simp only [hP] <;> exact isExact_expr_iff _ _ _ _

/-- Witness for the amended C1 at the pattern `a` with window `[1, 5]`. -/
theorem claim1_witness :
    ((estimatePattern [[.char 97]]).min ≤ 5) ∧
    ((regexToStringMinMax (fun _ => none) [[.char 97]] "a" 1 5 {}).isExact = true ↔
      (1 ≤ (regexToStringMinMax (fun _ => none) [[.char 97]] "a" 1 5 {}).actualMinLength ∧
        ((regexToStringMinMax (fun _ => none) [[.char 97]] "a" 1 5 {}).actualMaxLength = none ∨
          ∃ M, (regexToStringMinMax (fun _ => none) [[.char 97]] "a" 1 5 {}).actualMaxLength =
            some M ∧ M ≤ 5))) :=
  ⟨by decide, claim1_isExact_characterization (fun _ => none) [[.char 97]] "a" 1 5 {} (by decide)⟩

/-- Claim C10: when re-parsing the transformed pattern fails, the function
still returns (no failure), silently substitutes the requested window as the
final estimate (`actualMinLength = minLength`, `actualMaxLength =
maxLength`), and therefore reports `isExact = true`. -/
theorem claim10_reparse_failure_fallback (P : String → Option Pat) (pat : Pat) (src : String)
    (minL maxL : Nat) (opts : MinMaxOptions)
    (h : (estimatePattern pat).min ≤ maxL)
    (hfail : P (mmTransform minL (some maxL) opts.preferLazy pat) = none) :
    (regexToStringMinMax P pat src minL maxL opts).actualMinLength = minL ∧
    (regexToStringMinMax P pat src minL maxL opts).actualMaxLength = some maxL ∧
    (regexToStringMinMax P pat src minL maxL opts).isExact = true := by
  have hnot : ¬ (maxL < (estimatePattern pat).min) := not_lt.mpr h
  unfold regexToStringMinMax
  rw [if_neg hnot]
  simp [hfail, nullOrLe]

/-- Witness for C10 at the pattern `a` with a parser that rejects everything. -/
theorem claim10_witness :
    ((estimatePattern [[.char 97]]).min ≤ 5) ∧
    ((fun (_ : String) => (none : Option Pat)) (mmTransform 0 (some 5)
      (MinMaxOptions.mk false false none).preferLazy [[.char 97]]) = none) ∧
    ((regexToStringMinMax (fun _ => none) [[.char 97]] "a" 0 5 ⟨false, false, none⟩).actualMinLength = 0 ∧
      (regexToStringMinMax (fun _ => none) [[.char 97]] "a" 0 5 ⟨false, false, none⟩).actualMaxLength = some 5 ∧
      (regexToStringMinMax (fun _ => none) [[.char 97]] "a" 0 5 ⟨false, false, none⟩).isExact = true) :=
  ⟨by decide, rfl,
    claim10_reparse_failure_fallback (fun _ => none) [[.char 97]] "a" 0 5 ⟨false, false, none⟩
      (by decide) rfl⟩

/-- The infeasibility warning text is never the empty string. -/
theorem infeasibleWarning_ne_empty (a b : Nat) : infeasibleWarning a b ≠ "" := by
  intro hcontra
  have h1 := congrArg String.length hcontra
  rw [infeasibleWarning] at h1
  rw [String.length_append, String.length_append, String.length_append] at h1
  have h2 : ("Cannot meet maxLength=" : String).length = 22 := rfl
  have h3 : ("" : String).length = 0 := rfl
  omega

/-- Claim C3: when the structural minimum exceeds the requested `maxLength`,
`regexToStringMinMax` returns a non-empty warning, `isExact = false`, and —
when candidate generation was requested — candidates computed against the
widened window `[structuralMin, structuralMin + 10]`; in particular the
bounding of `[a-z]{20}` to `[5, 10]` returns a non-empty warning and
`isExact = false`. -/
theorem claim3_infeasible_branch (P : String → Option Pat) (pat : Pat) (src : String)
    (minL maxL : Nat) (opts : MinMaxOptions)
    (h : maxL < (estimatePattern pat).min) :
    ((∃ w, (regexToStringMinMax P pat src minL maxL opts).warning = some w ∧ w ≠ "") ∧
      (regexToStringMinMax P pat src minL maxL opts).isExact = false ∧
      (opts.generateCandidates = true →
        (regexToStringMinMax P pat src minL maxL opts).candidates =
          some (generate P pat src (estimatePattern pat).min
            ((estimatePattern pat).min + 10) (orFive opts.candidateCount)))) ∧
    ((regexToStringMinMax (fun _ => none)
        [[.quantifier 20 (some 20) true (.charClass false [.range 97 122])]]
        "[a-z]\x7b20\x7d" 5 10 {}).warning ≠ none ∧
      (regexToStringMinMax (fun _ => none)
        [[.quantifier 20 (some 20) true (.charClass false [.range 97 122])]]
        "[a-z]\x7b20\x7d" 5 10 {}).isExact = false) := by
  refine ⟨?_, by decide⟩
  unfold regexToStringMinMax
  rw [if_pos h]
  refine ⟨⟨_, rfl, infeasibleWarning_ne_empty _ _⟩, rfl, ?_⟩
  intro hg
  simp [hg]

/-- Witness for C3 at `[a-z]{20}` bounded to `[5, 10]` with candidate
generation requested. -/
theorem claim3_witness :
    (10 < (estimatePattern
      [[.quantifier 20 (some 20) true (.charClass false [.range 97 122])]]).min) ∧
    ((∃ w, (regexToStringMinMax (fun _ => none)
        [[.quantifier 20 (some 20) true (.charClass false [.range 97 122])]]
        "[a-z]\x7b20\x7d" 5 10 ⟨false, true, none⟩).warning = some w ∧ w ≠ "") ∧
      (regexToStringMinMax (fun _ => none)
        [[.quantifier 20 (some 20) true (.charClass false [.range 97 122])]]
        "[a-z]\x7b20\x7d" 5 10 ⟨false, true, none⟩).isExact = false ∧
      ((⟨false, true, none⟩ : MinMaxOptions).generateCandidates = true →
        (regexToStringMinMax (fun _ => none)
          [[.quantifier 20 (some 20) true (.charClass false [.range 97 122])]]
          "[a-z]\x7b20\x7d" 5 10 ⟨false, true, none⟩).candidates =
          some (generate (fun _ => none)
            [[.quantifier 20 (some 20) true (.charClass false [.range 97 122])]]
            "[a-z]\x7b20\x7d"
            (estimatePattern
              [[.quantifier 20 (some 20) true (.charClass false [.range 97 122])]]).min
            ((estimatePattern
              [[.quantifier 20 (some 20) true (.charClass false [.range 97 122])]]).min + 10)
            (orFive (⟨false, true, none⟩ : MinMaxOptions).candidateCount)))) :=
  ⟨by decide,
    (claim3_infeasible_branch (fun _ => none)
      [[.quantifier 20 (some 20) true (.charClass false [.range 97 122])]]
      "[a-z]\x7b20\x7d" 5 10 ⟨false, true, none⟩ (by decide)).1⟩

mutual

/-- A quantifier-free element contributes no quantifier to `findQuantifiers`. -/
theorem noQuantE_findQE : ∀ e : Element, noQuantE e = true → findQE e = []
  | .char _, _ => rfl
  | .charClass _ _, _ => rfl
  | .charSet _, _ => rfl
  | .quantifier _ _ _ _, h => by simp [noQuantE] at h
  | .capturingGroup _ alts, h => by
      rw [findQE]
      exact noQuantA_findQA alts (by simpa [noQuantE] using h)
  | .group alts, h => by
      rw [findQE]
      exact noQuantA_findQA alts (by simpa [noQuantE] using h)
  | .assertStart, _ => rfl
  | .assertEnd, _ => rfl
  | .assertWord _, _ => rfl
  | .lookahead _ _, _ => rfl
  | .lookbehind _ _, _ => rfl
  | .backreference _, _ => rfl

/-- A quantifier-free sequence contributes no quantifier to `findQuantifiers`. -/
theorem noQuantS_findQS : ∀ es : List Element, noQuantS es = true → findQS es = []
  | [], _ => rfl
  | e :: rest, h => by
      rw [noQuantS, Bool.and_eq_true] at h
      rw [findQS, noQuantE_findQE e h.1, noQuantS_findQS rest h.2]
      rfl

/-- A quantifier-free alternative list makes `findQuantifiers` return `[]`. -/
theorem noQuantA_findQA : ∀ alts : List (List Element), noQuantA alts = true → findQA alts = []
  | [], _ => rfl
  | alt :: rest, h => by
      rw [noQuantA, Bool.and_eq_true] at h
      rw [findQA, noQuantS_findQS alt h.1, noQuantA_findQA rest h.2]
      rfl

end

/-- Claim C5: on a pattern containing zero `Repetition` (`Quantifier`) nodes,
the Candidate Generator returns exactly one candidate carrying the input
pattern's source text unchanged and the Length Estimator's bound on the
untouched pattern. -/
theorem claim5_no_quantifier_roundtrip (P : String → Option Pat) (pat : Pat) (src : String)
    (minL maxL count : Nat) (h : noQuantA pat = true) :
    generate P pat src minL maxL count =
      [{ regex := src
         minLength := (estimatePattern pat).min
         maxLength := (estimatePattern pat).max }] := by
  have hq : findQA pat = [] := noQuantA_findQA pat h
  unfold generate
  rw [hq]
  rfl

/-- Witness for C5 at the quantifier-free pattern `a[a-z]`. -/
theorem claim5_witness :
    noQuantA [[.char 97, .charClass false [.range 97 122]]] = true ∧
    generate (fun _ => none) [[.char 97, .charClass false [.range 97 122]]]
        "a[a-z]" 0 5 3 =
      [{ regex := "a[a-z]"
         minLength := (estimatePattern [[.char 97, .charClass false [.range 97 122]]]).min
         maxLength := (estimatePattern [[.char 97, .charClass false [.range 97 122]]]).max }] :=
  ⟨by decide,
    claim5_no_quantifier_roundtrip (fun _ => none)
      [[.char 97, .charClass false [.range 97 122]]] "a[a-z]" 0 5 3 (by decide)⟩

/-- Taking a positive prefix of a non-empty list is non-empty. -/
theorem take_ne_nil_of_ne_nil {α : Type} (l : List α) (n : Nat) (h : l ≠ []) (hn : 1 ≤ n) :
    l.take n ≠ [] := by
  cases l with
  | nil => exact absurd rfl h
  | cons a t =>
      cases n with
      | zero => omega
      | succ m => simp [List.take]

/-- `generateQuantifierConfigurations` always produces at least one
configuration when at least one is requested (the no-growable branch and the
forced fallback each contribute one). -/
theorem generateQuantifierConfigurations_ne_nil (P : String → Option Pat) (pat : Pat)
    (minL maxL count : Nat) (hc : 1 ≤ count) :
    generateQuantifierConfigurations P pat minL maxL count ≠ [] := by
  unfold generateQuantifierConfigurations
  by_cases hg : ((findQA pat).filter isGrowable).length = 0
  · rw [if_pos hg]
    simp
  · rw [if_neg hg]
    apply take_ne_nil_of_ne_nil _ _ _ hc
    by_cases hcfgs : (attemptLoop P pat (findQA pat) ((findQA pat).filter isGrowable).length
        minL maxL count (targetValues minL maxL) []).length = 0
    · rw [if_pos hcfgs]
      simp
    · rw [if_neg hcfgs]
      exact fun hnil => hcfgs (by rw [hnil]; rfl)

/-- The candidate-collection loop keeps at least the head configuration when
the parser succeeds on every configuration's rewritten text. -/
theorem generateLoop_ne_nil (P : String → Option Pat) (pat : Pat) (cfgs : List Cfg)
    (hne : cfgs ≠ [])
    (hp : ∀ cfg ∈ cfgs, (P (ctTransform cfg pat)).isSome = true) :
    generateLoop P pat cfgs ≠ [] := by
  cases cfgs with
  | nil => exact absurd rfl hne
  | cons c rest =>
      have hc := hp c (List.mem_cons_self c rest)
      rw [Option.isSome_iff_exists] at hc
      obtain ⟨v, hv⟩ := hc
      rw [generateLoop, hv]
      simp

/-- Claim C4: on a pattern containing at least one `Repetition` node, with at
least one candidate requested and the parser succeeding on every rewritten
configuration, `generate` returns a non-empty candidate list; moreover, when
growable repetitions exist and no attempted target length produced a
configuration, the configurations are exactly the forced fallback pinned
from `minLength` alone. -/
theorem claim4_generator_nonempty (P : String → Option Pat) (pat : Pat) (src : String)
    (minL maxL count : Nat) (hc : 1 ≤ count) (_hq : noQuantA pat = false)
    (hp : ∀ cfg ∈ generateQuantifierConfigurations P pat minL maxL count,
      (P (ctTransform cfg pat)).isSome = true) :
    generate P pat src minL maxL count ≠ [] ∧
    (((findQA pat).filter isGrowable).length ≠ 0 →
      attemptLoop P pat (findQA pat) ((findQA pat).filter isGrowable).length
        minL maxL count (targetValues minL maxL) [] = [] →
      generateQuantifierConfigurations P pat minL maxL count =
        List.take count [cfgOf (findQA pat) (assignFallback minL)]) := by
  constructor
  · unfold generate
    by_cases hfq : (findQA pat).length = 0
    · rw [if_pos hfq]
      simp
    · rw [if_neg hfq]
      exact take_ne_nil_of_ne_nil _ _
        (generateLoop_ne_nil P pat _
          (generateQuantifierConfigurations_ne_nil P pat minL maxL count hc) hp) hc
  · intro hg hempty
    unfold generateQuantifierConfigurations
    rw [if_neg hg, hempty]
    rfl

/-- Witness for C4 at the pattern `a+` with window `[2, 4]`, five candidates
requested, and a parser accepting every rewritten text. -/
theorem claim4_witness :
    (1 ≤ 5) ∧ noQuantA [[.quantifier 1 none true (.char 97)]] = false ∧
    (generate (fun _ => some [[Element.char 97]]) [[.quantifier 1 none true (.char 97)]]
        "a+" 2 4 5 ≠ [] ∧
      (((findQA [[.quantifier 1 none true (.char 97)]]).filter isGrowable).length ≠ 0 →
        attemptLoop (fun _ => some [[Element.char 97]]) [[.quantifier 1 none true (.char 97)]]
          (findQA [[.quantifier 1 none true (.char 97)]])
          ((findQA [[.quantifier 1 none true (.char 97)]]).filter isGrowable).length
          2 4 5 (targetValues 2 4) [] = [] →
        generateQuantifierConfigurations (fun _ => some [[Element.char 97]])
          [[.quantifier 1 none true (.char 97)]] 2 4 5 =
          List.take 5 [cfgOf (findQA [[.quantifier 1 none true (.char 97)]])
            (assignFallback 2)])) :=
  ⟨by decide, by decide,
    claim4_generator_nonempty (fun _ => some [[Element.char 97]])
      [[.quantifier 1 none true (.char 97)]] "a+" 2 4 5 (by decide) (by decide)
      (fun _ _ => rfl)⟩

/-- A left fold of `Nat.min` is at most its initial value. -/
theorem foldl_nat_min_le_init (l : List Nat) : ∀ m0 : Nat, l.foldl Nat.min m0 ≤ m0 := by
  induction l with
  | nil => intro m0; simp
  | cons a t ih =>
      intro m0
      exact le_trans (ih (Nat.min m0 a)) (Nat.min_le_left m0 a)

/-- A left fold of `Nat.min` is at most every list member. -/
theorem foldl_nat_min_le_mem (l : List Nat) : ∀ m0 x : Nat, x ∈ l → l.foldl Nat.min m0 ≤ x := by
  induction l with
  | nil => intro _ _ h; cases h
  | cons a t ih =>
      intro m0 x h
      rcases List.mem_cons.mp h with rfl | hx
      · exact le_trans (foldl_nat_min_le_init t (Nat.min m0 x)) (Nat.min_le_right m0 x)
      · exact ih (Nat.min m0 a) x hx

/-- A left fold of `Nat.min` is attained: it is the initial value or a member. -/
theorem foldl_nat_min_mem_or_init (l : List Nat) :
    ∀ m0 : Nat, l.foldl Nat.min m0 = m0 ∨ l.foldl Nat.min m0 ∈ l := by
  induction l with
  | nil => intro m0; left; rfl
  | cons a t ih =>
      intro m0
      rcases ih (Nat.min m0 a) with h | h
      · rw [List.foldl_cons, h]
        by_cases hle : m0 ≤ a
        · left; exact Nat.min_eq_left hle
        · right
          have hma : Nat.min m0 a = a := Nat.min_eq_right (Nat.le_of_not_le hle)
          rw [hma]
          exact List.mem_cons_self a t
      · right
        rw [List.foldl_cons]
        exact List.mem_cons_of_mem a h

/-- A left fold of `Nat.max` is at least its initial value. -/
theorem init_le_foldl_nat_max (l : List Nat) : ∀ m0 : Nat, m0 ≤ l.foldl Nat.max m0 := by
  induction l with
  | nil => intro m0; simp
  | cons a t ih =>
      intro m0
      exact le_trans (Nat.le_max_left m0 a) (ih (Nat.max m0 a))

/-- A left fold of `Nat.max` is at least every list member. -/
theorem mem_le_foldl_nat_max (l : List Nat) : ∀ m0 x : Nat, x ∈ l → x ≤ l.foldl Nat.max m0 := by
  induction l with
  | nil => intro _ _ h; cases h
  | cons a t ih =>
      intro m0 x h
      rcases List.mem_cons.mp h with rfl | hx
      · exact le_trans (Nat.le_max_right m0 x) (init_le_foldl_nat_max t (Nat.max m0 x))
      · exact ih (Nat.max m0 a) x hx

/-- A left fold of `Nat.max` is attained: it is the initial value or a member. -/
theorem foldl_nat_max_mem_or_init (l : List Nat) :
    ∀ m0 : Nat, l.foldl Nat.max m0 = m0 ∨ l.foldl Nat.max m0 ∈ l := by
  induction l with
  | nil => intro m0; left; rfl
  | cons a t ih =>
      intro m0
      rcases ih (Nat.max m0 a) with h | h
      · rw [List.foldl_cons, h]
        by_cases hle : a ≤ m0
        · left; exact Nat.max_eq_left hle
        · right
          have hma : Nat.max m0 a = a := Nat.max_eq_right (Nat.le_of_not_le hle)
          rw [hma]
          exact List.mem_cons_self a t
      · right
        rw [List.foldl_cons]
        exact List.mem_cons_of_mem a h

/-- The `overallMin` accumulator of `visitAlternatives`, once set, folds
`Nat.min` over the remaining branch minima. -/
theorem visitAltsAux_fst_some (alts : List (List Element)) :
    ∀ (m0 : Nat) (om : Option Nat),
      (visitAltsAux (some m0) om alts).1 =
        some ((alts.map fun a => (visitSequence a).min).foldl Nat.min m0) := by
  induction alts with
  | nil => intro m0 om; rfl
  | cons alt rest ih =>
      intro m0 om
      simp only [visitAltsAux, visitSequence, altsMinStep, List.map_cons, List.foldl_cons]
      exact ih _ _

/-- On a non-empty list the `overallMin` accumulator starts from the first
branch's minimum. -/
theorem visitAltsAux_fst_none_cons (alt : List Element) (rest : List (List Element))
    (om : Option Nat) :
    (visitAltsAux none om (alt :: rest)).1 =
      some ((rest.map fun a => (visitSequence a).min).foldl Nat.min (visitSequence alt).min) := by
  simp only [visitAltsAux, visitSequence, altsMinStep]
  exact visitAltsAux_fst_some rest _ _

/-- Once the `overallMax` accumulator is `null` it stays `null`. -/
theorem visitAltsAux_snd_none (alts : List (List Element)) :
    ∀ omin : Option Nat, (visitAltsAux omin none alts).2 = none := by
  induction alts with
  | nil => intro omin; rfl
  | cons alt rest ih =>
      intro omin
      cases hr : (visitSeqAux 0 (some 0) alt).max <;>
        simp only [visitAltsAux, hr, altsMaxStep] <;> exact ih _

/-- When every branch has a finite max, the `overallMax` accumulator folds
`Nat.max` over the branch maxima. -/
theorem visitAltsAux_snd_some (alts : List (List Element)) :
    ∀ (M0 : Nat) (omin : Option Nat),
      (∀ a ∈ alts, (visitSequence a).max ≠ none) →
      (visitAltsAux omin (some M0) alts).2 =
        some ((alts.map fun a => (visitSequence a).max.getD 0).foldl Nat.max M0) := by
  induction alts with
  | nil => intro M0 omin _; rfl
  | cons alt rest ih =>
      intro M0 omin hall
      obtain ⟨sx, hsx⟩ : ∃ sx, (visitSequence alt).max = some sx := by
        cases hmx : (visitSequence alt).max with
        | none => exact absurd hmx (hall alt (List.mem_cons_self alt rest))
        | some v => exact ⟨v, rfl⟩
      rw [visitSequence] at hsx
      simp only [visitAltsAux, visitSequence, altsMaxStep, List.map_cons, List.foldl_cons, hsx,
        Option.getD_some]
      exact ih _ _ (fun a ha => hall a (List.mem_cons_of_mem alt ha))

/-- A branch with unbounded max makes the whole alternation max unbounded. -/
theorem visitAltsAux_snd_none_of_mem (alts : List (List Element)) :
    ∀ (omin om : Option Nat),
      (∃ a ∈ alts, (visitSequence a).max = none) → (visitAltsAux omin om alts).2 = none := by
  induction alts with
  | nil => intro _ _ h; obtain ⟨a, ha, _⟩ := h; cases ha
  | cons alt rest ih =>
      intro omin om hex
      obtain ⟨a, ha, hna⟩ := hex
      rcases List.mem_cons.mp ha with rfl | hmem
      · rw [visitSequence] at hna
        simp only [visitAltsAux, hna, altsMaxStep]
        exact visitAltsAux_snd_none rest _
      · cases hr : (visitSeqAux 0 (some 0) alt).max with
        | none =>
            simp only [visitAltsAux, hr, altsMaxStep]
            exact visitAltsAux_snd_none rest _
        | some rx =>
            cases om with
            | none =>
                simp only [visitAltsAux, hr, altsMaxStep]
                exact visitAltsAux_snd_none rest _
            | some am =>
                simp only [visitAltsAux, hr, altsMaxStep]
                exact ih _ _ ⟨a, hmem, hna⟩

/-- The minimum returned by `visitAlternatives` on a non-empty list is the
fold of `Nat.min` over all branch minima. -/
theorem visitAlternatives_cons_min (alt : List Element) (rest : List (List Element)) :
    (visitAlternatives (alt :: rest)).min =
      (rest.map fun x => (visitSequence x).min).foldl Nat.min (visitSequence alt).min := by
  rw [visitAlternatives, if_neg (by simp)]
  simp only [finishAlts]
  rw [visitAltsAux_fst_none_cons]
  rfl

/-- The max returned by `visitAlternatives` when every branch max is finite. -/
theorem visitAlternatives_cons_max_allsome (alt : List Element) (rest : List (List Element))
    (hall : ∀ a ∈ alt :: rest, (visitSequence a).max ≠ none) :
    (visitAlternatives (alt :: rest)).max =
      some (((alt :: rest).map fun x => (visitSequence x).max.getD 0).foldl Nat.max 0) := by
  rw [visitAlternatives, if_neg (by simp)]
  simp only [finishAlts]
  exact visitAltsAux_snd_some (alt :: rest) 0 none hall

/-- The max returned by `visitAlternatives` when some branch max is unbounded. -/
theorem visitAlternatives_max_none_of (alt : List Element) (rest : List (List Element))
    (hex : ∃ a ∈ alt :: rest, (visitSequence a).max = none) :
    (visitAlternatives (alt :: rest)).max = none := by
  rw [visitAlternatives, if_neg (by simp)]
  simp only [finishAlts]
  exact visitAltsAux_snd_none_of_mem (alt :: rest) none (some 0) hex

/-- Claim C6: on every non-empty alternative list the Length Estimator
returns as min the minimum over all branches' minima and as max the maximum
over all branches' maxima, unbounded exactly when some branch is unbounded. -/
theorem claim6_alternation_envelope (alts : List (List Element)) (h : alts ≠ []) :
    ((visitAlternatives alts).min ∈ alts.map (fun a => (visitSequence a).min) ∧
      ∀ m ∈ alts.map (fun a => (visitSequence a).min), (visitAlternatives alts).min ≤ m) ∧
    ((visitAlternatives alts).max = none ↔ ∃ a ∈ alts, (visitSequence a).max = none) ∧
    (∀ M, (visitAlternatives alts).max = some M →
      ((∃ a ∈ alts, (visitSequence a).max = some M) ∧
        ∀ a ∈ alts, ∀ v, (visitSequence a).max = some v → v ≤ M)) := by
  obtain ⟨alt, rest, rfl⟩ : ∃ alt rest, alts = alt :: rest := by
    cases alts with
    | nil => exact absurd rfl h
    | cons a r => exact ⟨a, r, rfl⟩
  refine ⟨?_, ?_, ?_⟩
  · rw [visitAlternatives_cons_min]
    constructor
    · rcases foldl_nat_min_mem_or_init (rest.map fun x => (visitSequence x).min)
          (visitSequence alt).min with h1 | h1
      · rw [h1, List.map_cons]
        exact List.mem_cons_self _ _
      · rw [List.map_cons]
        exact List.mem_cons_of_mem _ h1
    · intro m hm
      rw [List.map_cons] at hm
      rcases List.mem_cons.mp hm with rfl | hm'
      · exact foldl_nat_min_le_init _ _
      · exact foldl_nat_min_le_mem _ _ _ hm'
  · constructor
    · intro hnone
      by_contra hnex
      push_neg at hnex
      rw [visitAlternatives_cons_max_allsome alt rest hnex] at hnone
      exact Option.noConfusion hnone
    · intro hex
      exact visitAlternatives_max_none_of alt rest hex
  · intro M hM
    have hall : ∀ a ∈ alt :: rest, (visitSequence a).max ≠ none := by
      intro a ha hna
      rw [visitAlternatives_max_none_of alt rest ⟨a, ha, hna⟩] at hM
      exact Option.noConfusion hM
    rw [visitAlternatives_cons_max_allsome alt rest hall] at hM
    have hMeq : ((alt :: rest).map fun x => (visitSequence x).max.getD 0).foldl Nat.max 0 = M :=
      Option.some_injective _ hM
    constructor
    · rcases foldl_nat_max_mem_or_init
          ((alt :: rest).map fun x => (visitSequence x).max.getD 0) 0 with h1 | h1
      · obtain ⟨v0, hv0⟩ : ∃ v0, (visitSequence alt).max = some v0 := by
          cases hx : (visitSequence alt).max with
          | none => exact absurd hx (hall alt (List.mem_cons_self _ _))
          | some v => exact ⟨v, rfl⟩
        have hv0mem : v0 ∈ (alt :: rest).map fun x => (visitSequence x).max.getD 0 := by
          refine List.mem_map.mpr ⟨alt, List.mem_cons_self _ _, ?_⟩
          rw [hv0]
          rfl
        have hv0le := mem_le_foldl_nat_max _ 0 v0 hv0mem
        rw [h1] at hv0le
        have hM0 : M = 0 := by rw [← hMeq, h1]
        refine ⟨alt, List.mem_cons_self _ _, ?_⟩
        rw [hv0, hM0]
        congr 1
        omega
      · rw [hMeq] at h1
        obtain ⟨a, ha, hga⟩ := List.mem_map.mp h1
        obtain ⟨va, hva⟩ : ∃ va, (visitSequence a).max = some va := by
          cases hx : (visitSequence a).max with
          | none => exact absurd hx (hall a ha)
          | some v => exact ⟨v, rfl⟩
        refine ⟨a, ha, ?_⟩
        rw [hva] at hga ⊢
        simp only [Option.getD_some] at hga
        rw [hga]
    · intro a ha v hv
      have hvmem : v ∈ (alt :: rest).map fun x => (visitSequence x).max.getD 0 :=
        List.mem_map.mpr ⟨a, ha, by rw [hv]; rfl⟩
      have hle := mem_le_foldl_nat_max _ 0 v hvmem
      rw [hMeq] at hle
      exact hle

/-- Witness for C6 at the two-branch alternation `a|bc`. -/
theorem claim6_witness :
    (([[Element.char 97], [Element.char 98, Element.char 99]] : List (List Element)) ≠ []) ∧
    (((visitAlternatives [[Element.char 97], [Element.char 98, Element.char 99]]).min ∈
        ([[Element.char 97], [Element.char 98, Element.char 99]] : List (List Element)).map
          (fun a => (visitSequence a).min) ∧
      ∀ m ∈ ([[Element.char 97], [Element.char 98, Element.char 99]] :
          List (List Element)).map (fun a => (visitSequence a).min),
        (visitAlternatives [[Element.char 97], [Element.char 98, Element.char 99]]).min ≤ m) ∧
    ((visitAlternatives [[Element.char 97], [Element.char 98, Element.char 99]]).max = none ↔
      ∃ a ∈ ([[Element.char 97], [Element.char 98, Element.char 99]] : List (List Element)),
        (visitSequence a).max = none) ∧
    (∀ M, (visitAlternatives [[Element.char 97], [Element.char 98, Element.char 99]]).max =
        some M →
      ((∃ a ∈ ([[Element.char 97], [Element.char 98, Element.char 99]] : List (List Element)),
          (visitSequence a).max = some M) ∧
        ∀ a ∈ ([[Element.char 97], [Element.char 98, Element.char 99]] : List (List Element)),
          ∀ v, (visitSequence a).max = some v → v ≤ M))) :=
  ⟨by simp,
    claim6_alternation_envelope [[Element.char 97], [Element.char 98, Element.char 99]]
      (by simp)⟩

mutual

/-- On well-formed elements the estimator's bound satisfies `min ≤ max`
whenever max is finite. -/
theorem wfE_leMax : ∀ e : Element, wfE e = true → leMax (visitNode e).min (visitNode e).max = true
  | .char _, _ => rfl
  | .charClass _ _, _ => rfl
  | .charSet _, _ => rfl
  | .quantifier qmin qmax g e, h => by
      rw [wfE, Bool.and_eq_true] at h
      have ih := wfE_leMax e h.2
      cases hq : qmax with
      | none => simp [visitNode, hq, leMax]
      | some qx =>
          cases hx : (visitNode e).max with
          | none => simp [visitNode, hq, hx, leMax]
          | some ix =>
              rw [hq] at h
              have h1 : qmin ≤ qx := by simpa [wfQuantBound] using h.1
              rw [hx] at ih
              have h2 : (visitNode e).min ≤ ix := by simpa [leMax] using ih
              simp only [visitNode, hq, hx, leMax, decide_eq_true_eq]
              exact Nat.mul_le_mul h1 h2
  | .capturingGroup _ alts, h => by
      rw [wfE] at h
      rw [visitNode]
      by_cases hl : 0 < alts.length
      · rw [if_pos hl]
        cases hp2 : (visitAltsAux none (some 0) alts).2 with
        | none => simp [finishAlts, hp2, leMax]
        | some M =>
            cases hp1 : (visitAltsAux none (some 0) alts).1 with
            | none => simp [finishAlts, hp1, hp2, leMax]
            | some m =>
                have hm := wfA_leMaxAux alts none (some 0) h
                  (fun _ _ hab _ => Option.noConfusion hab) m M hp1 hp2
                simp [finishAlts, hp1, hp2, leMax, hm]
      · rw [if_neg hl]
        rfl
  | .group alts, h => by
      rw [wfE] at h
      rw [visitNode]
      by_cases hl : 0 < alts.length
      · rw [if_pos hl]
        cases hp2 : (visitAltsAux none (some 0) alts).2 with
        | none => simp [finishAlts, hp2, leMax]
        | some M =>
            cases hp1 : (visitAltsAux none (some 0) alts).1 with
            | none => simp [finishAlts, hp1, hp2, leMax]
            | some m =>
                have hm := wfA_leMaxAux alts none (some 0) h
                  (fun _ _ hab _ => Option.noConfusion hab) m M hp1 hp2
                simp [finishAlts, hp1, hp2, leMax, hm]
      · rw [if_neg hl]
        rfl
  | .assertStart, _ => rfl
  | .assertEnd, _ => rfl
  | .assertWord _, _ => rfl
  | .lookahead _ _, _ => rfl
  | .lookbehind _ _, _ => rfl
  | .backreference _, _ => rfl

/-- The sequence loop preserves the `min ≤ max` invariant of its
accumulator. -/
theorem wfS_leMaxAux : ∀ (es : List Element) (tmin : Nat) (tmax : Option Nat),
    wfS es = true → leMax tmin tmax = true →
    leMax (visitSeqAux tmin tmax es).min (visitSeqAux tmin tmax es).max = true
  | [], tmin, tmax, _, hacc => by simpa [visitSeqAux] using hacc
  | e :: rest, tmin, tmax, h, hacc => by
      rw [wfS, Bool.and_eq_true] at h
      have ihe := wfE_leMax e h.1
      rw [visitSeqAux]
      apply wfS_leMaxAux rest _ _ h.2
      cases hrx : (visitNode e).max with
      | none => simp [seqMaxStep, hrx, leMax]
      | some rx =>
          cases htm : tmax with
          | none => simp [seqMaxStep, hrx, leMax]
          | some tm =>
              rw [hrx] at ihe
              rw [htm] at hacc
              simp only [leMax, decide_eq_true_eq] at ihe hacc
              simp only [seqMaxStep, hrx, leMax, decide_eq_true_eq]
              exact Nat.add_le_add hacc ihe

/-- The alternatives loop preserves the relation between the `overallMin`
and `overallMax` accumulators. -/
theorem wfA_leMaxAux : ∀ (alts : List (List Element)) (omin omax : Option Nat),
    wfA alts = true →
    (∀ m M, omin = some m → omax = some M → m ≤ M) →
    ∀ m M, (visitAltsAux omin omax alts).1 = some m →
      (visitAltsAux omin omax alts).2 = some M → m ≤ M
  | [], omin, omax, _, hacc => by
      intro m M h1 h2
      rw [visitAltsAux] at h1 h2
      exact hacc m M h1 h2
  | alt :: rest, omin, omax, h, hacc => by
      rw [wfA, Bool.and_eq_true] at h
      have hs := wfS_leMaxAux alt 0 (some 0) h.1 rfl
      rw [visitAltsAux]
      apply wfA_leMaxAux rest _ _ h.2
      intro m M h1 h2
      cases hsx : (visitSeqAux 0 (some 0) alt).max with
      | none =>
          rw [hsx] at h2
          exact Option.noConfusion h2
      | some sx =>
          rw [hsx] at h2
          cases hom : omax with
          | none =>
              rw [hom] at h2
              exact Option.noConfusion h2
          | some am =>
              rw [hom] at h2
              simp only [altsMaxStep, Option.some.injEq] at h2
              rw [hsx] at hs
              simp only [leMax, decide_eq_true_eq] at hs
              cases homin : omin with
              | none =>
                  rw [homin] at h1
                  simp only [altsMinStep, Option.some.injEq] at h1
                  rw [← h1, ← h2]
                  exact le_trans hs (Nat.le_max_right am sx)
              | some m0 =>
                  rw [homin] at h1
                  simp only [altsMinStep, Option.some.injEq] at h1
                  have hm0 : m0 ≤ am := hacc m0 am (by rw [homin]) (by rw [hom])
                  rw [← h1, ← h2]
                  exact le_trans (le_trans (Nat.min_le_left _ _) hm0) (Nat.le_max_left am sx)

end

/-- Claim C8: on every well-formed (parseable) pattern the Length Bound
invariant holds — min is a non-negative integer and `min ≤ max` whenever max
is finite — both at the root estimate and for the recursive estimate of
every element. -/
theorem claim8_estimator_bound_invariant (pat : Pat) (e : Element)
    (h1 : wfA pat = true) (h2 : wfE e = true) :
    (0 ≤ (estimatePattern pat).min ∧
      leMax (estimatePattern pat).min (estimatePattern pat).max = true) ∧
    (0 ≤ (visitNode e).min ∧ leMax (visitNode e).min (visitNode e).max = true) := by
  refine ⟨⟨Nat.zero_le _, ?_⟩, Nat.zero_le _, wfE_leMax e h2⟩
  rw [estimatePattern, visitAlternatives]
  by_cases hl : pat.length = 0
  · rw [if_pos hl]
    rfl
  · rw [if_neg hl]
    cases hp2 : (visitAltsAux none (some 0) pat).2 with
    | none => simp [finishAlts, hp2, leMax]
    | some M =>
        cases hp1 : (visitAltsAux none (some 0) pat).1 with
        | none => simp [finishAlts, hp1, hp2, leMax]
        | some m =>
            have hm := wfA_leMaxAux pat none (some 0) h1
              (fun _ _ hab _ => Option.noConfusion hab) m M hp1 hp2
            simp [finishAlts, hp1, hp2, leMax, hm]

/-- Witness for C8 at the pattern `(a|bc)d{2,5}`. -/
theorem claim8_witness :
    wfA [[Element.capturingGroup none [[Element.char 97], [Element.char 98, Element.char 99]],
      Element.quantifier 2 (some 5) true (Element.char 100)]] = true ∧
    wfE (Element.quantifier 2 (some 5) true (Element.char 100)) = true ∧
    ((0 ≤ (estimatePattern
        [[Element.capturingGroup none [[Element.char 97], [Element.char 98, Element.char 99]],
          Element.quantifier 2 (some 5) true (Element.char 100)]]).min ∧
      leMax (estimatePattern
        [[Element.capturingGroup none [[Element.char 97], [Element.char 98, Element.char 99]],
          Element.quantifier 2 (some 5) true (Element.char 100)]]).min
        (estimatePattern
        [[Element.capturingGroup none [[Element.char 97], [Element.char 98, Element.char 99]],
          Element.quantifier 2 (some 5) true (Element.char 100)]]).max = true) ∧
    (0 ≤ (visitNode (Element.quantifier 2 (some 5) true (Element.char 100))).min ∧
      leMax (visitNode (Element.quantifier 2 (some 5) true (Element.char 100))).min
        (visitNode (Element.quantifier 2 (some 5) true (Element.char 100))).max = true)) :=
  ⟨by decide, by decide,
    claim8_estimator_bound_invariant
      [[Element.capturingGroup none [[Element.char 97], [Element.char 98, Element.char 99]],
        Element.quantifier 2 (some 5) true (Element.char 100)]]
      (Element.quantifier 2 (some 5) true (Element.char 100)) (by decide) (by decide)⟩

end ValibotRegex
